import Mathlib

/-!
Shallow embedding of the `set` Go package (array_set.go, hash_set.go, dynamic_set.go).

Modelling choices:
- A Go slice `[]E` is a `List E`. Capacity is not modelled (it never affects behaviour).
- A Go map `map[E]struct{}` is a duplicate-free `List E` holding its keys; insertion
  (`m[e] = struct{}{}`) is `mapInsert`, deletion is `List.erase`. A nil map is `none` and a
  non-nil map is `some keys`; the distinction matters because `DynamicSet.IsArraySet` tests
  `set.hash.elements == nil`. Iteration order of a Go map is nondeterministic; the model
  fixes insertion order as a canonical order, which is sound for the size, membership and
  mode properties proved here, where order is irrelevant.
- A Go `int` is `Int`; Go's `/` truncates toward zero, which is `Int.tdiv`.
-/

namespace GoSet

/-- One key insertion into a Go map modelled as a key list: a no-op when the key is
present, otherwise the key is appended. This is also exactly the body of `ArraySet.Add`
(scan for the element, append when absent). -/
def mapInsert {E : Type} [DecidableEq E] (m : List E) (e : E) : List E :=
  if e ∈ m then m else m ++ [e]

/-- `ArraySet` from array_set.go: a slice of pairwise-distinct elements. -/
structure ArraySet (E : Type) where
  elements : List E

/-- `HashSet` from hash_set.go: a `map[E]struct{}`; `none` is a nil map. -/
structure HashSet (E : Type) where
  elements : Option (List E)

/-- `DynamicSet` from dynamic_set.go: a size threshold plus both backing stores, of which
at most one is active (`IsArraySet` iff the hash map is nil). -/
structure DynamicSet (E : Type) where
  sizeThreshold : Int
  array : ArraySet E
  hash : HashSet E

/-- The zero value of `ArraySet`: a nil slice. -/
def ArraySet.zero (E : Type) : ArraySet E := ⟨[]⟩

/-- The zero value of `HashSet`: a nil map. -/
def HashSet.zero (E : Type) : HashSet E := ⟨none⟩

/-- The zero value of `DynamicSet`: threshold 0, nil slice, nil map. -/
def DynamicSet.zero (E : Type) : DynamicSet E := ⟨0, ⟨[]⟩, ⟨none⟩⟩

/-- `DefaultDynamicSetSizeThreshold` from dynamic_set.go. -/
def DefaultDynamicSetSizeThreshold : Int := 20

variable {E : Type} [DecidableEq E]

/-! ### ArraySet operations (array_set.go) -/

/-- `ArraySet.Contains`: linear scan for the element. -/
def ArraySet.Contains (s : ArraySet E) (e : E) : Bool := decide (e ∈ s.elements)

/-- `ArraySet.Add`: scan for the element; return unchanged if present, else append. -/
def ArraySet.Add (s : ArraySet E) (e : E) : ArraySet E :=
  if e ∈ s.elements then s else ⟨s.elements ++ [e]⟩

/-- `ArraySet.Remove`: remove the first (by invariant, only) occurrence, preserving order. -/
def ArraySet.Remove (s : ArraySet E) (e : E) : ArraySet E := ⟨s.elements.erase e⟩

/-- `ArraySet.Clear`: truncate to length 0 (capacity, not modelled, is kept). -/
def ArraySet.Clear (_ : ArraySet E) : ArraySet E := ⟨[]⟩

/-- `ArraySet.Size`: slice length. -/
def ArraySet.Size (s : ArraySet E) : Nat := s.elements.length

/-- `ArraySet.IsEmpty`: length zero. -/
def ArraySet.IsEmpty (s : ArraySet E) : Bool := decide (s.elements.length = 0)

/-- `ArraySet.ToHashSet`: a fresh non-nil map populated with every element. -/
def ArraySet.ToHashSet (s : ArraySet E) : HashSet E :=
  ⟨some (s.elements.foldl mapInsert [])⟩

/-- `ArraySet.CopyArraySet`: a fresh slice with the same elements. -/
def ArraySet.CopyArraySet (s : ArraySet E) : ArraySet E := ⟨s.elements⟩

/-- `ArraySet.AddFromSlice`: add each element in order (the nil pre-allocation in the
source only sets capacity). -/
def ArraySet.AddFromSlice (s : ArraySet E) (l : List E) : ArraySet E :=
  l.foldl ArraySet.Add s

/-! ### HashSet operations (hash_set.go) -/

/-- `HashSet.Contains`: false on a nil map, otherwise key lookup. -/
def HashSet.Contains (s : HashSet E) (e : E) : Bool :=
  match s.elements with
  | none => false
  | some m => decide (e ∈ m)

/-- `HashSet.Add`: allocate an empty map when nil, then insert the key. -/
def HashSet.Add (s : HashSet E) (e : E) : HashSet E :=
  match s.elements with
  | none => ⟨some (mapInsert [] e)⟩
  | some m => ⟨some (mapInsert m e)⟩

/-- `HashSet.Remove`: `delete` the key (a no-op on a nil map). -/
def HashSet.Remove (s : HashSet E) (e : E) : HashSet E :=
  match s.elements with
  | none => s
  | some m => ⟨some (m.erase e)⟩

/-- `HashSet.Clear`: delete every key, leaving the map allocated (nil stays nil, since
ranging over a nil map does nothing). -/
def HashSet.Clear (s : HashSet E) : HashSet E :=
  match s.elements with
  | none => s
  | some _ => ⟨some []⟩

/-- `HashSet.Size`: `len` of the map (0 for nil). -/
def HashSet.Size (s : HashSet E) : Nat := (s.elements.getD []).length

/-- `HashSet.IsEmpty`: size zero. -/
def HashSet.IsEmpty (s : HashSet E) : Bool := decide (s.Size = 0)

/-- `HashSet.ToArraySet`: a slice of the map's keys (in the model's canonical order). -/
def HashSet.ToArraySet (s : HashSet E) : ArraySet E := ⟨s.elements.getD []⟩

/-- `HashSet.CopyHashSet`: a fresh non-nil map with the same keys. -/
def HashSet.CopyHashSet (s : HashSet E) : HashSet E := ⟨some (s.elements.getD [])⟩

/-! ### DynamicSet operations (dynamic_set.go) -/

/-- `DynamicSet.IsArraySet`: the hash map is nil. -/
def DynamicSet.IsArraySet (s : DynamicSet E) : Bool := decide (s.hash.elements = none)

/-- `DynamicSet.IsHashSet`: the hash map is non-nil. -/
def DynamicSet.IsHashSet (s : DynamicSet E) : Bool := decide (s.hash.elements ≠ none)

/-- `arraySetReachedThreshold`: `len(array.elements) >= sizeThreshold`. -/
def DynamicSet.arraySetReachedThreshold (s : DynamicSet E) : Bool :=
  decide (s.sizeThreshold ≤ (s.array.elements.length : Int))

/-- `hashSetReachedThreshold`: `len(hash.elements) <= sizeThreshold/2` (Go division
truncates toward zero, i.e. `Int.tdiv`). -/
def DynamicSet.hashSetReachedThreshold (s : DynamicSet E) : Bool :=
  decide (((s.hash.elements.getD []).length : Int) ≤ Int.tdiv s.sizeThreshold 2)

/-- `transformToHashSet`: convert the array store to a hash store, nil out the array. -/
def DynamicSet.transformToHashSet (s : DynamicSet E) : DynamicSet E :=
  { s with hash := s.array.ToHashSet, array := ⟨[]⟩ }

/-- `transformToArraySet`: convert the hash store to an array store, nil out the map. -/
def DynamicSet.transformToArraySet (s : DynamicSet E) : DynamicSet E :=
  { s with array := s.hash.ToArraySet, hash := ⟨none⟩ }

/-- `DynamicSet.Add`: dispatch to the active store; in array mode, transform to a hash
set when the threshold is reached. -/
def DynamicSet.Add (s : DynamicSet E) (e : E) : DynamicSet E :=
  if s.IsArraySet then
    let s1 := { s with array := s.array.Add e }
    if s1.arraySetReachedThreshold then s1.transformToHashSet else s1
  else
    { s with hash := s.hash.Add e }

/-- `DynamicSet.Remove`: dispatch to the active store; in hash mode, transform back to an
array set when the size falls to half the threshold or below. -/
def DynamicSet.Remove (s : DynamicSet E) (e : E) : DynamicSet E :=
  if s.IsArraySet then
    { s with array := s.array.Remove e }
  else
    let s1 := { s with hash := s.hash.Remove e }
    if s1.hashSetReachedThreshold then s1.transformToArraySet else s1

/-- `DynamicSet.Clear`: in array mode clear the array; in hash mode set the map to nil. -/
def DynamicSet.Clear (s : DynamicSet E) : DynamicSet E :=
  if s.IsArraySet then { s with array := s.array.Clear } else { s with hash := ⟨none⟩ }

/-- `DynamicSet.SetSizeThreshold`: store the new threshold, then re-check the transition
in the current mode. -/
def DynamicSet.SetSizeThreshold (s : DynamicSet E) (t : Int) : DynamicSet E :=
  let s1 := { s with sizeThreshold := t }
  if s1.IsArraySet then
    if t ≤ (s1.array.elements.length : Int) then s1.transformToHashSet else s1
  else
    if (((s1.hash.elements.getD []).length : Int) < t) then s1.transformToArraySet else s1

/-- `DynamicSet.Contains`: dispatch to the active store. -/
def DynamicSet.Contains (s : DynamicSet E) (e : E) : Bool :=
  if s.IsArraySet then s.array.Contains e else s.hash.Contains e

/-- `DynamicSet.Size`: dispatch to the active store. -/
def DynamicSet.Size (s : DynamicSet E) : Nat :=
  if s.IsArraySet then s.array.Size else s.hash.Size

/-- `DynamicSet.IsEmpty`: dispatch to the active store. -/
def DynamicSet.IsEmpty (s : DynamicSet E) : Bool :=
  if s.IsArraySet then s.array.IsEmpty else s.hash.IsEmpty

/-- `NewDynamicSet`: default threshold, nil slice, nil map. -/
def NewDynamicSet (E : Type) : DynamicSet E :=
  ⟨DefaultDynamicSetSizeThreshold, ⟨[]⟩, ⟨none⟩⟩

/-- `DynamicSetFromSlice`: default threshold, add all elements to the array store, then
check the growth transition once. -/
def DynamicSetFromSlice (l : List E) : DynamicSet E :=
  let s : DynamicSet E :=
    ⟨DefaultDynamicSetSizeThreshold, (ArraySet.zero E).AddFromSlice l, ⟨none⟩⟩
  if s.arraySetReachedThreshold then s.transformToHashSet else s

/-! ### ComparableSet: the capability interface, as a sum of the three representations -/

/-- A value of any of the three representations, as passed to the `ComparableSet`
parameters of the binary operations. -/
inductive CSet (E : Type) where
  | arr : ArraySet E → CSet E
  | hsh : HashSet E → CSet E
  | dyn : DynamicSet E → CSet E

/-- The kind of concrete representation a `CSet` holds. -/
inductive RepKind where
  | arrayRep : RepKind
  | hashRep : RepKind
  | dynamicRep : RepKind
deriving DecidableEq

/-- The representation tag of a `CSet`. -/
def CSet.rep : CSet E → RepKind
  | .arr _ => .arrayRep
  | .hsh _ => .hashRep
  | .dyn _ => .dynamicRep

/-- `Contains` through the interface: dynamic dispatch to the concrete method. -/
def CSet.Contains : CSet E → E → Bool
  | .arr s, e => s.Contains e
  | .hsh s, e => s.Contains e
  | .dyn s, e => s.Contains e

/-- `Size` through the interface. -/
def CSet.Size : CSet E → Nat
  | .arr s => s.Size
  | .hsh s => s.Size
  | .dyn s => s.Size

/-- The sequence of elements `Iterate` yields (in the model's canonical order): the
active backing store's element list. -/
def CSet.elemsList : CSet E → List E
  | .arr s => s.elements
  | .hsh s => s.elements.getD []
  | .dyn s => if s.IsArraySet then s.array.elements else s.hash.elements.getD []

/-! ### Binary operations taking a ComparableSet argument -/

/-- `ArraySet.IsSubsetOf`: every own element is contained in the other set. -/
def ArraySet.IsSubsetOf (s : ArraySet E) (o : CSet E) : Bool :=
  s.elements.all fun e => o.Contains e

/-- `ArraySet.Equals`: equal sizes and subset. -/
def ArraySet.Equals (s : ArraySet E) (o : CSet E) : Bool :=
  decide (s.Size = o.Size) && s.IsSubsetOf o

/-- `ArraySet.UnionArraySet`: start from an empty array set (capacity not modelled), add
all own elements, then add every element the other set yields. -/
def ArraySet.UnionArraySet (s : ArraySet E) (o : CSet E) : ArraySet E :=
  o.elemsList.foldl ArraySet.Add (s.elements.foldl ArraySet.Add ⟨[]⟩)

/-- `ArraySet.IntersectionArraySet`: keep own elements also contained in the other set. -/
def ArraySet.IntersectionArraySet (s : ArraySet E) (o : CSet E) : ArraySet E :=
  s.elements.foldl (fun acc e => if o.Contains e then acc.Add e else acc) ⟨[]⟩

/-- `HashSet.IsSubsetOf`: every own key is contained in the other set. -/
def HashSet.IsSubsetOf (s : HashSet E) (o : CSet E) : Bool :=
  (s.elements.getD []).all fun e => o.Contains e

/-- `HashSet.Equals`: equal sizes and subset. -/
def HashSet.Equals (s : HashSet E) (o : CSet E) : Bool :=
  decide (s.Size = o.Size) && s.IsSubsetOf o

/-- `HashSet.UnionHashSet`: start from a fresh allocated (non-nil) map, add all own keys,
then add every element the other set yields. -/
def HashSet.UnionHashSet (s : HashSet E) (o : CSet E) : HashSet E :=
  o.elemsList.foldl HashSet.Add ((s.elements.getD []).foldl HashSet.Add ⟨some []⟩)

/-- `HashSet.IntersectionHashSet`: fresh allocated map, keeping own keys also contained
in the other set. -/
def HashSet.IntersectionHashSet (s : HashSet E) (o : CSet E) : HashSet E :=
  (s.elements.getD []).foldl (fun acc e => if o.Contains e then acc.Add e else acc) ⟨some []⟩

/-- `DynamicSet.IsSubsetOf`: dispatch to the active store. -/
def DynamicSet.IsSubsetOf (s : DynamicSet E) (o : CSet E) : Bool :=
  if s.IsArraySet then s.array.IsSubsetOf o else s.hash.IsSubsetOf o

/-- `DynamicSet.Equals`: dispatch to the active store. -/
def DynamicSet.Equals (s : DynamicSet E) (o : CSet E) : Bool :=
  if s.IsArraySet then s.array.Equals o else s.hash.Equals o

/-- `DynamicSet.UnionDynamicSet`: fresh dynamic set with the receiver's threshold; in
array mode take the array union and re-check the growth transition, in hash mode take the
hash union. -/
def DynamicSet.UnionDynamicSet (s : DynamicSet E) (o : CSet E) : DynamicSet E :=
  let u : DynamicSet E := ⟨s.sizeThreshold, ⟨[]⟩, ⟨none⟩⟩
  if s.IsArraySet then
    let u1 := { u with array := s.array.UnionArraySet o }
    if u1.arraySetReachedThreshold then u1.transformToHashSet else u1
  else
    { u with hash := s.hash.UnionHashSet o }

/-- `DynamicSet.IntersectionDynamicSet`: fresh dynamic set with the receiver's threshold;
in array mode take the array intersection, in hash mode take the hash intersection and
re-check the shrink transition. -/
def DynamicSet.IntersectionDynamicSet (s : DynamicSet E) (o : CSet E) : DynamicSet E :=
  let i : DynamicSet E := ⟨s.sizeThreshold, ⟨[]⟩, ⟨none⟩⟩
  if s.IsArraySet then
    { i with array := s.array.IntersectionArraySet o }
  else
    let i1 := { i with hash := s.hash.IntersectionHashSet o }
    if i1.hashSetReachedThreshold then i1.transformToArraySet else i1

/-- `Equals` through the interface. -/
def CSet.Equals : CSet E → CSet E → Bool
  | .arr s, o => s.Equals o
  | .hsh s, o => s.Equals o
  | .dyn s, o => s.Equals o

/-- `IsSubsetOf` through the interface. -/
def CSet.IsSubsetOf : CSet E → CSet E → Bool
  | .arr s, o => s.IsSubsetOf o
  | .hsh s, o => s.IsSubsetOf o
  | .dyn s, o => s.IsSubsetOf o

/-- `Union` through the interface: the result is boxed in the receiver's representation. -/
def CSet.Union : CSet E → CSet E → CSet E
  | .arr s, o => .arr (s.UnionArraySet o)
  | .hsh s, o => .hsh (s.UnionHashSet o)
  | .dyn s, o => .dyn (s.UnionDynamicSet o)

/-- `Intersection` through the interface: boxed in the receiver's representation. -/
def CSet.Intersection : CSet E → CSet E → CSet E
  | .arr s, o => .arr (s.IntersectionArraySet o)
  | .hsh s, o => .hsh (s.IntersectionHashSet o)
  | .dyn s, o => .dyn (s.IntersectionDynamicSet o)

/-! ### Sequencing helpers for the trajectory claims -/

/-- One-by-one `Add` calls, left to right. -/
def DynamicSet.addAll (s : DynamicSet E) (l : List E) : DynamicSet E :=
  l.foldl DynamicSet.Add s

/-- One-by-one `Remove` calls, left to right. -/
def DynamicSet.removeAll (s : DynamicSet E) (r : List E) : DynamicSet E :=
  r.foldl DynamicSet.Remove s

/-- An empty `DynamicSet` configured with threshold `T` via `SetSizeThreshold` (for
`T = 20` this coincides with the default-constructed set). -/
def emptyWithThreshold (E : Type) [DecidableEq E] (T : Int) : DynamicSet E :=
  (NewDynamicSet E).SetSizeThreshold T

/-! ### Basic lemmas about map insertion and the Add folds -/

theorem mapInsert_of_mem {m : List E} {e : E} (h : e ∈ m) : mapInsert m e = m := by
  simp [mapInsert, h]

theorem mapInsert_of_not_mem {m : List E} {e : E} (h : e ∉ m) :
    mapInsert m e = m ++ [e] := by
  simp [mapInsert, h]

theorem mem_mapInsert {m : List E} {a e : E} : a ∈ mapInsert m e ↔ a ∈ m ∨ a = e := by
  by_cases h : e ∈ m
  · rw [mapInsert_of_mem h]
    constructor
    · exact Or.inl
    · rintro (ha | rfl)
      · exact ha
      · exact h
  · rw [mapInsert_of_not_mem h]
    simp

theorem nodup_mapInsert {m : List E} (e : E) (h : m.Nodup) : (mapInsert m e).Nodup := by
  by_cases he : e ∈ m
  · rw [mapInsert_of_mem he]; exact h
  · rw [mapInsert_of_not_mem he]
    simpa [List.nodup_append, h] using he

theorem mem_foldl_mapInsert (l : List E) (m : List E) (a : E) :
    a ∈ l.foldl mapInsert m ↔ a ∈ m ∨ a ∈ l := by
  induction l generalizing m with
  | nil => simp
  | cons e l ih =>
    rw [List.foldl_cons, ih, mem_mapInsert]
    constructor
    · rintro ((h | rfl) | h)
      · exact Or.inl h
      · simp
      · simp [h]
    · rintro (h | h)
      · exact Or.inl (Or.inl h)
      · rcases List.mem_cons.mp h with rfl | h
        · exact Or.inl (Or.inr rfl)
        · exact Or.inr h

theorem nodup_foldl_mapInsert (l : List E) {m : List E} (h : m.Nodup) :
    (l.foldl mapInsert m).Nodup := by
  induction l generalizing m with
  | nil => exact h
  | cons e l ih => exact ih (nodup_mapInsert e h)

theorem foldl_mapInsert_of_nodup_append {m l : List E} (h : (m ++ l).Nodup) :
    l.foldl mapInsert m = m ++ l := by
  induction l generalizing m with
  | nil => simp
  | cons e l ih =>
    rw [List.foldl_cons]
    have he : e ∉ m := by
      intro hmem
      exact (List.disjoint_of_nodup_append h) hmem (List.mem_cons_self e l)
    rw [mapInsert_of_not_mem he]
    have h2 : ((m ++ [e]) ++ l).Nodup := by
      simpa using h
    rw [ih h2]
    simp

theorem foldl_mapInsert_nil_of_nodup {l : List E} (h : l.Nodup) :
    l.foldl mapInsert [] = l := by
  simpa using foldl_mapInsert_of_nodup_append (m := []) (by simpa using h)

theorem toFinset_foldl_mapInsert (l m : List E) :
    (l.foldl mapInsert m).toFinset = m.toFinset ∪ l.toFinset := by
  ext a
  simp [List.mem_toFinset, mem_foldl_mapInsert]

theorem length_foldl_mapInsert (l : List E) {m : List E} (h : m.Nodup) :
    (l.foldl mapInsert m).length = (m.toFinset ∪ l.toFinset).card := by
  rw [← toFinset_foldl_mapInsert]
  exact (List.toFinset_card_of_nodup (nodup_foldl_mapInsert l h)).symm

theorem ArraySet.add_elements (s : ArraySet E) (e : E) :
    (s.Add e).elements = mapInsert s.elements e := by
  unfold ArraySet.Add mapInsert
  split <;> rfl

theorem ArraySet.foldl_add_elements (l : List E) (s : ArraySet E) :
    (l.foldl ArraySet.Add s).elements = l.foldl mapInsert s.elements := by
  induction l generalizing s with
  | nil => rfl
  | cons e l ih => rw [List.foldl_cons, List.foldl_cons, ih, ArraySet.add_elements]

theorem HashSet.foldl_add_eq (l : List E) (m : List E) :
    l.foldl HashSet.Add ⟨some m⟩ = ⟨some (l.foldl mapInsert m)⟩ := by
  induction l generalizing m with
  | nil => rfl
  | cons e l ih => rw [List.foldl_cons, List.foldl_cons]; exact ih (mapInsert m e)

theorem HashSet.add_some (m : List E) (e : E) :
    HashSet.Add ⟨some m⟩ e = ⟨some (mapInsert m e)⟩ := rfl

theorem HashSet.foldl_addIf_isSome (l : List E) (p : E → Bool) (m : List E) :
    ∃ v, ((l.foldl (fun acc e => if p e then acc.Add e else acc)
      (⟨some m⟩ : HashSet E)).elements) = some v := by
  induction l generalizing m with
  | nil => exact ⟨m, rfl⟩
  | cons e l ih =>
    rw [List.foldl_cons]
    by_cases h : p e
    · rw [if_pos h, HashSet.add_some]
      exact ih (mapInsert m e)
    · rw [if_neg h]
      exact ih m

/-! ### Dispatch bridge lemmas for DynamicSet -/

/-- The element list of a DynamicSet's active store, i.e. the elements `Size`, `Contains`
and `Iterate` dispatch over. -/
def DynamicSet.content (s : DynamicSet E) : List E :=
  match s.hash.elements with
  | none => s.array.elements
  | some m => m

theorem DynamicSet.size_eq_content_length (s : DynamicSet E) :
    s.Size = s.content.length := by
  obtain ⟨t, a, ⟨he⟩⟩ := s
  cases he <;>
    simp [DynamicSet.Size, DynamicSet.IsArraySet, DynamicSet.content, ArraySet.Size,
      HashSet.Size]

theorem DynamicSet.contains_eq_content_mem (s : DynamicSet E) (e : E) :
    s.Contains e = decide (e ∈ s.content) := by
  obtain ⟨t, a, ⟨he⟩⟩ := s
  cases he <;>
    simp [DynamicSet.Contains, DynamicSet.IsArraySet, DynamicSet.content,
      ArraySet.Contains, HashSet.Contains]

/-! ### Claim theorems (first batch) -/

/-- C4: the zero values of ArraySet, HashSet and DynamicSet are safe to use: `Add` on a
zero value inserts the element, and `Contains`/`Size`/`IsEmpty` on a zero value behave as
on an empty set. (All operations of the embedding are total Lean functions, matching the
spec's totality statement.) -/
theorem c4_zero_value_safety (e : E) :
    ((ArraySet.zero E).Add e).Contains e = true ∧
    ((HashSet.zero E).Add e).Contains e = true ∧
    ((DynamicSet.zero E).Add e).Contains e = true ∧
    (ArraySet.zero E).Contains e = false ∧
    (ArraySet.zero E).Size = 0 ∧
    (ArraySet.zero E).IsEmpty = true ∧
    (HashSet.zero E).Contains e = false ∧
    (HashSet.zero E).Size = 0 ∧
    (HashSet.zero E).IsEmpty = true ∧
    (DynamicSet.zero E).Contains e = false ∧
    (DynamicSet.zero E).Size = 0 ∧
    (DynamicSet.zero E).IsEmpty = true := by
  refine ⟨?_, ?_, ?_, ?_, ?_, ?_, ?_, ?_, ?_, ?_, ?_, ?_⟩ <;>
    simp [ArraySet.zero, HashSet.zero, DynamicSet.zero, ArraySet.Add, HashSet.Add,
      DynamicSet.Add, ArraySet.Contains, HashSet.Contains, DynamicSet.Contains,
      ArraySet.Size, HashSet.Size, DynamicSet.Size, ArraySet.IsEmpty, HashSet.IsEmpty,
      DynamicSet.IsEmpty, DynamicSet.IsArraySet, DynamicSet.arraySetReachedThreshold,
      DynamicSet.transformToHashSet, ArraySet.ToHashSet, mapInsert]

/-- C9: the zero value of DynamicSet has size threshold 0 (not the documented default of
20), so its very first `Add` already transforms it to hash mode; the default threshold
governs only constructor-built instances. -/
theorem c9_zero_value_threshold (e : E) :
    (DynamicSet.zero E).sizeThreshold = 0 ∧
    (DynamicSet.zero E).sizeThreshold ≠ DefaultDynamicSetSizeThreshold ∧
    ((DynamicSet.zero E).Add e).IsHashSet = true ∧
    (NewDynamicSet E).sizeThreshold = DefaultDynamicSetSizeThreshold ∧
    ∀ l : List E, (DynamicSetFromSlice l).sizeThreshold = DefaultDynamicSetSizeThreshold := by
  refine ⟨rfl, by simp [DynamicSet.zero, DefaultDynamicSetSizeThreshold], ?_, rfl, ?_⟩
  · simp [DynamicSet.zero, DynamicSet.Add, DynamicSet.IsArraySet, DynamicSet.IsHashSet,
      DynamicSet.arraySetReachedThreshold, DynamicSet.transformToHashSet, ArraySet.Add,
      ArraySet.ToHashSet]
  · intro l
    simp only [DynamicSetFromSlice]
    split <;> rfl

/-- C10: `Clear` always leaves the DynamicSet empty and in array mode (in hash mode it
sets the hash store to nil, which makes `IsArraySet` true and `IsHashSet` false). The
hypothesis is the representation invariant that every reachable hash-mode set has a
nil (empty) array store. -/
theorem c10_clear_resets_to_array_mode (s : DynamicSet E)
    (hinv : s.IsHashSet = true → s.array.elements = []) :
    s.Clear.Size = 0 ∧ s.Clear.IsArraySet = true ∧ s.Clear.IsHashSet = false := by
  obtain ⟨t, a, ⟨he⟩⟩ := s
  cases he with
  | none =>
    simp [DynamicSet.Clear, DynamicSet.IsArraySet, DynamicSet.IsHashSet, DynamicSet.Size,
      ArraySet.Clear, ArraySet.Size]
  | some m =>
    have ha : a.elements = [] := by
      apply hinv
      simp [DynamicSet.IsHashSet]
    simp [DynamicSet.Clear, DynamicSet.IsArraySet, DynamicSet.IsHashSet, DynamicSet.Size,
      ArraySet.Size, ha]

/-- Closed witness for C10 at a concrete hash-mode set. -/
theorem c10_clear_witness :
    ((⟨4, ⟨[]⟩, ⟨some [1, 2, 3]⟩⟩ : DynamicSet Int).Clear.Size = 0 ∧
      (⟨4, ⟨[]⟩, ⟨some [1, 2, 3]⟩⟩ : DynamicSet Int).Clear.IsArraySet = true ∧
      (⟨4, ⟨[]⟩, ⟨some [1, 2, 3]⟩⟩ : DynamicSet Int).Clear.IsHashSet = false) :=
  c10_clear_resets_to_array_mode (⟨4, ⟨[]⟩, ⟨some [1, 2, 3]⟩⟩ : DynamicSet Int)
    (by decide)

/-- C2: `UnionDynamicSet` and `IntersectionDynamicSet` re-check the transition
thresholds on the constructed result: an array-mode receiver whose union reaches the
threshold yields a hash-mode union, and a hash-mode receiver whose intersection is at or
below half the threshold (truncated division) yields an array-mode intersection. -/
theorem c2_union_intersection_recheck_thresholds (s : DynamicSet E) (o : CSet E) :
    (s.IsArraySet = true →
      s.sizeThreshold ≤ ((s.UnionDynamicSet o).Size : Int) →
      (s.UnionDynamicSet o).IsHashSet = true) ∧
    (s.IsHashSet = true →
      ((s.IntersectionDynamicSet o).Size : Int) ≤ Int.tdiv s.sizeThreshold 2 →
      (s.IntersectionDynamicSet o).IsArraySet = true) := by
  obtain ⟨t, a, ⟨he⟩⟩ := s
  constructor
  · intro hA hsize
    cases he with
    | some m => simp [DynamicSet.IsArraySet] at hA
    | none =>
      revert hsize
      unfold DynamicSet.UnionDynamicSet
      rw [if_pos (by simp [DynamicSet.IsArraySet])]
      simp only
      split
      · intro _
        simp [DynamicSet.transformToHashSet, DynamicSet.IsHashSet, ArraySet.ToHashSet]
      · rename_i hcheck
        intro hsize
        exfalso
        apply hcheck
        simp only [DynamicSet.arraySetReachedThreshold, decide_eq_true_iff]
        simpa [DynamicSet.Size, DynamicSet.IsArraySet, ArraySet.Size] using hsize
  · intro hH hsize
    cases he with
    | none => simp [DynamicSet.IsHashSet] at hH
    | some m =>
      revert hsize
      unfold DynamicSet.IntersectionDynamicSet
      rw [if_neg (by simp [DynamicSet.IsArraySet])]
      simp only
      split
      · intro _
        simp [DynamicSet.transformToArraySet, DynamicSet.IsArraySet]
      · rename_i hcheck
        intro hsize
        exfalso
        apply hcheck
        obtain ⟨v, hv⟩ := HashSet.foldl_addIf_isSome m (fun e => o.Contains e) []
        simp only [DynamicSet.hashSetReachedThreshold, decide_eq_true_iff]
        revert hsize
        simp [DynamicSet.Size, DynamicSet.IsArraySet, HashSet.Size,
          HashSet.IntersectionHashSet, hv]

/-- Closed witness for C2: a hash-mode receiver with threshold 20 intersected with a
disjoint set yields an array-mode result, and an array-mode receiver whose union reaches
its threshold 2 yields a hash-mode result. -/
theorem c2_witness :
    (((⟨2, ⟨[1]⟩, ⟨none⟩⟩ : DynamicSet Int).IsArraySet = true) ∧
      ((2 : Int) ≤ (((⟨2, ⟨[1]⟩, ⟨none⟩⟩ : DynamicSet Int).UnionDynamicSet
        (CSet.arr ⟨[2]⟩)).Size : Int)) ∧
      ((⟨2, ⟨[1]⟩, ⟨none⟩⟩ : DynamicSet Int).UnionDynamicSet
        (CSet.arr ⟨[2]⟩)).IsHashSet = true) ∧
    (((⟨20, ⟨[]⟩, ⟨some [1, 2, 3]⟩⟩ : DynamicSet Int).IsHashSet = true) ∧
      ((((⟨20, ⟨[]⟩, ⟨some [1, 2, 3]⟩⟩ : DynamicSet Int).IntersectionDynamicSet
        (CSet.arr ⟨[7]⟩)).Size : Int) ≤ Int.tdiv 20 2) ∧
      ((⟨20, ⟨[]⟩, ⟨some [1, 2, 3]⟩⟩ : DynamicSet Int).IntersectionDynamicSet
        (CSet.arr ⟨[7]⟩)).IsArraySet = true) := by
  refine ⟨⟨by decide, by decide, ?_⟩, ⟨by decide, by decide, ?_⟩⟩
  · exact (c2_union_intersection_recheck_thresholds
      (⟨2, ⟨[1]⟩, ⟨none⟩⟩ : DynamicSet Int) (CSet.arr ⟨[2]⟩)).1 (by decide) (by decide)
  · exact (c2_union_intersection_recheck_thresholds
      (⟨20, ⟨[]⟩, ⟨some [1, 2, 3]⟩⟩ : DynamicSet Int) (CSet.arr ⟨[7]⟩)).2
      (by decide) (by decide)

/-! ### SetSizeThreshold: closed forms per mode -/

theorem DynamicSet.setSizeThreshold_array (t n : Int) (a : ArraySet E) :
    (⟨t, a, ⟨none⟩⟩ : DynamicSet E).SetSizeThreshold n =
      if n ≤ (a.elements.length : Int)
        then ⟨n, ⟨[]⟩, ⟨some (a.elements.foldl mapInsert [])⟩⟩
        else ⟨n, a, ⟨none⟩⟩ := by
  by_cases hc : n ≤ (a.elements.length : Int)
  · rw [if_pos hc]
    simp [DynamicSet.SetSizeThreshold, DynamicSet.IsArraySet,
      DynamicSet.transformToHashSet, ArraySet.ToHashSet, hc]
  · rw [if_neg hc]
    simp [DynamicSet.SetSizeThreshold, DynamicSet.IsArraySet,
      DynamicSet.transformToHashSet, ArraySet.ToHashSet, hc]

theorem DynamicSet.setSizeThreshold_hash (t n : Int) (a : ArraySet E) (m : List E) :
    (⟨t, a, ⟨some m⟩⟩ : DynamicSet E).SetSizeThreshold n =
      if (m.length : Int) < n
        then ⟨n, ⟨m⟩, ⟨none⟩⟩
        else ⟨n, a, ⟨some m⟩⟩ := by
  by_cases hc : (m.length : Int) < n
  · rw [if_pos hc]
    simp [DynamicSet.SetSizeThreshold, DynamicSet.IsArraySet,
      DynamicSet.transformToArraySet, HashSet.ToArraySet, hc]
  · rw [if_neg hc]
    simp [DynamicSet.SetSizeThreshold, DynamicSet.IsArraySet,
      DynamicSet.transformToArraySet, HashSet.ToArraySet, hc]

/-- C3: `SetSizeThreshold n` keeps the element collection (membership and size) and
performs exactly the documented representation change: array mode with size at or above
`n` becomes hash mode, hash mode with size below `n` becomes array mode, and otherwise
the mode is kept. The hypothesis is the no-duplicates invariant of the array store. -/
theorem c3_setSizeThreshold_transitions (s : DynamicSet E) (n : Int)
    (hwf : s.array.elements.Nodup) :
    (∀ e, (s.SetSizeThreshold n).Contains e = s.Contains e) ∧
    (s.SetSizeThreshold n).Size = s.Size ∧
    (s.IsArraySet = true →
      (n ≤ (s.Size : Int) → (s.SetSizeThreshold n).IsHashSet = true) ∧
      ((s.Size : Int) < n → (s.SetSizeThreshold n).IsArraySet = true)) ∧
    (s.IsHashSet = true →
      ((s.Size : Int) < n → (s.SetSizeThreshold n).IsArraySet = true) ∧
      (n ≤ (s.Size : Int) → (s.SetSizeThreshold n).IsHashSet = true)) := by
  obtain ⟨t, a, ⟨he⟩⟩ := s
  cases he with
  | none =>
    have hfold : a.elements.foldl mapInsert [] = a.elements :=
      foldl_mapInsert_nil_of_nodup hwf
    rw [DynamicSet.setSizeThreshold_array]
    by_cases hc : n ≤ (a.elements.length : Int)
    · rw [if_pos hc]
      refine ⟨?_, ?_, ?_, ?_⟩
      · intro e
        simp [DynamicSet.Contains, DynamicSet.IsArraySet, HashSet.Contains,
          ArraySet.Contains, hfold]
      · simp [DynamicSet.Size, DynamicSet.IsArraySet, HashSet.Size, ArraySet.Size, hfold]
      · intro _
        constructor
        · intro _
          simp [DynamicSet.IsHashSet]
        · intro habs
          exfalso
          simp [DynamicSet.Size, DynamicSet.IsArraySet, ArraySet.Size] at habs
          omega
      · intro habs
        simp [DynamicSet.IsHashSet] at habs
    · rw [if_neg hc]
      refine ⟨fun e => rfl, rfl, ?_, ?_⟩
      · intro _
        constructor
        · intro habs
          exfalso
          simp [DynamicSet.Size, DynamicSet.IsArraySet, ArraySet.Size] at habs
          omega
        · intro _
          simp [DynamicSet.IsArraySet]
      · intro habs
        simp [DynamicSet.IsHashSet] at habs
  | some m =>
    rw [DynamicSet.setSizeThreshold_hash]
    by_cases hc : (m.length : Int) < n
    · rw [if_pos hc]
      refine ⟨?_, ?_, ?_, ?_⟩
      · intro e
        simp [DynamicSet.Contains, DynamicSet.IsArraySet, HashSet.Contains,
          ArraySet.Contains]
      · simp [DynamicSet.Size, DynamicSet.IsArraySet, HashSet.Size, ArraySet.Size]
      · intro habs
        simp [DynamicSet.IsArraySet] at habs
      · intro _
        constructor
        · intro _
          simp [DynamicSet.IsArraySet]
        · intro habs
          exfalso
          simp [DynamicSet.Size, DynamicSet.IsArraySet, HashSet.Size] at habs
          omega
    · rw [if_neg hc]
      refine ⟨fun e => rfl, rfl, ?_, ?_⟩
      · intro habs
        simp [DynamicSet.IsArraySet] at habs
      · intro _
        constructor
        · intro habs
          exfalso
          simp [DynamicSet.Size, DynamicSet.IsArraySet, HashSet.Size] at habs
          omega
        · intro _
          simp [DynamicSet.IsHashSet]

/-- Closed witness for C3: lowering the threshold of a size-3 array-mode set to 2
transforms it to hash mode, preserving membership and size. -/
theorem c3_witness :
    ((⟨20, ⟨[4, 5, 6]⟩, ⟨none⟩⟩ : DynamicSet Int).array.elements.Nodup) ∧
    ((⟨20, ⟨[4, 5, 6]⟩, ⟨none⟩⟩ : DynamicSet Int).SetSizeThreshold 2).Contains 5 =
      (⟨20, ⟨[4, 5, 6]⟩, ⟨none⟩⟩ : DynamicSet Int).Contains 5 ∧
    ((⟨20, ⟨[4, 5, 6]⟩, ⟨none⟩⟩ : DynamicSet Int).SetSizeThreshold 2).Size =
      (⟨20, ⟨[4, 5, 6]⟩, ⟨none⟩⟩ : DynamicSet Int).Size ∧
    ((⟨20, ⟨[4, 5, 6]⟩, ⟨none⟩⟩ : DynamicSet Int).SetSizeThreshold 2).IsHashSet = true :=
  ⟨by decide,
   (c3_setSizeThreshold_transitions (⟨20, ⟨[4, 5, 6]⟩, ⟨none⟩⟩ : DynamicSet Int) 2
     (by decide)).1 5,
   (c3_setSizeThreshold_transitions (⟨20, ⟨[4, 5, 6]⟩, ⟨none⟩⟩ : DynamicSet Int) 2
     (by decide)).2.1,
   ((c3_setSizeThreshold_transitions (⟨20, ⟨[4, 5, 6]⟩, ⟨none⟩⟩ : DynamicSet Int) 2
     (by decide)).2.2.1 (by decide)).1 (by decide)⟩

/-- C8: converting an ArraySet to a HashSet and back (and a HashSet to an ArraySet and
back) preserves the element set: same size, and `Contains` agrees on every element. The
hypotheses are the no-duplicates invariants of the two stores. -/
theorem c8_roundtrip_preserves_elements (a : ArraySet E) (ha : a.elements.Nodup)
    (h : HashSet E) (hh : (h.elements.getD []).Nodup) :
    (a.ToHashSet.ToArraySet.Size = a.Size ∧
      ∀ e, a.ToHashSet.ToArraySet.Contains e = a.Contains e) ∧
    (h.ToArraySet.ToHashSet.Size = h.Size ∧
      ∀ e, h.ToArraySet.ToHashSet.Contains e = h.Contains e) := by
  have hfold : a.elements.foldl mapInsert [] = a.elements :=
    foldl_mapInsert_nil_of_nodup ha
  constructor
  · constructor
    · simp [ArraySet.ToHashSet, HashSet.ToArraySet, ArraySet.Size, HashSet.Size, hfold]
    · intro e
      simp [ArraySet.ToHashSet, HashSet.ToArraySet, ArraySet.Contains, HashSet.Contains,
        hfold]
  · obtain ⟨hm⟩ := h
    cases hm with
    | none =>
      constructor
      · rfl
      · intro e
        simp [HashSet.ToArraySet, ArraySet.ToHashSet, HashSet.Contains]
    | some m =>
      have hmfold : m.foldl mapInsert [] = m := foldl_mapInsert_nil_of_nodup (by simpa using hh)
      constructor
      · simp [HashSet.ToArraySet, ArraySet.ToHashSet, HashSet.Size, hmfold]
      · intro e
        simp [HashSet.ToArraySet, ArraySet.ToHashSet, HashSet.Contains, hmfold]

/-- Closed witness for C8 at concrete sets. -/
theorem c8_witness :
    ((⟨[1, 2]⟩ : ArraySet Int).elements.Nodup) ∧
    (((⟨some [3]⟩ : HashSet Int).elements.getD []).Nodup) ∧
    (⟨[1, 2]⟩ : ArraySet Int).ToHashSet.ToArraySet.Size = (⟨[1, 2]⟩ : ArraySet Int).Size ∧
    (⟨[1, 2]⟩ : ArraySet Int).ToHashSet.ToArraySet.Contains 2 =
      (⟨[1, 2]⟩ : ArraySet Int).Contains 2 ∧
    (⟨some [3]⟩ : HashSet Int).ToArraySet.ToHashSet.Size = (⟨some [3]⟩ : HashSet Int).Size ∧
    (⟨some [3]⟩ : HashSet Int).ToArraySet.ToHashSet.Contains 3 =
      (⟨some [3]⟩ : HashSet Int).Contains 3 :=
  ⟨by decide, by decide,
   ((c8_roundtrip_preserves_elements ⟨[1, 2]⟩ (by decide) ⟨some [3]⟩ (by decide)).1).1,
   ((c8_roundtrip_preserves_elements ⟨[1, 2]⟩ (by decide) ⟨some [3]⟩ (by decide)).1).2 2,
   ((c8_roundtrip_preserves_elements ⟨[1, 2]⟩ (by decide) ⟨some [3]⟩ (by decide)).2).1,
   ((c8_roundtrip_preserves_elements ⟨[1, 2]⟩ (by decide) ⟨some [3]⟩ (by decide)).2).2 3⟩

/-! ### Content evolution of DynamicSet.Add, and CSet bridges -/

theorem DynamicSet.add_content (s : DynamicSet E) (e : E) (h : s.content.Nodup) :
    (s.Add e).content = mapInsert s.content e := by
  obtain ⟨t, a, ⟨he⟩⟩ := s
  cases he with
  | some m =>
    simp [DynamicSet.Add, DynamicSet.IsArraySet, DynamicSet.content, HashSet.Add]
  | none =>
    have hcontent :
        (⟨t, a, ⟨none⟩⟩ : DynamicSet E).content = a.elements := rfl
    rw [hcontent] at h
    have hadd : a.Add e = ⟨mapInsert a.elements e⟩ := by
      rw [ArraySet.mk.injEq, ArraySet.add_elements]
    by_cases hc : t ≤ ((mapInsert a.elements e).length : Int)
    · simp [DynamicSet.Add, DynamicSet.IsArraySet, DynamicSet.arraySetReachedThreshold,
        hadd, hc, DynamicSet.transformToHashSet, DynamicSet.content, ArraySet.ToHashSet,
        foldl_mapInsert_nil_of_nodup (nodup_mapInsert e h)]
    · simp [DynamicSet.Add, DynamicSet.IsArraySet, DynamicSet.arraySetReachedThreshold,
        hadd, hc, DynamicSet.content]

theorem DynamicSet.addAll_content (l : List E) (s : DynamicSet E) (h : s.content.Nodup) :
    (s.addAll l).content = l.foldl mapInsert s.content := by
  induction l generalizing s with
  | nil => rfl
  | cons e l ih =>
    have hstep := DynamicSet.add_content s e h
    have hsplit : (s.addAll (e :: l)) = (s.Add e).addAll l := rfl
    rw [hsplit, ih (s.Add e) (by rw [hstep]; exact nodup_mapInsert e h), hstep]
    rfl

/-- The interface element list of a boxed DynamicSet is its active content list. -/
theorem DynamicSet.elemsList_dyn (u : DynamicSet E) :
    (CSet.dyn u).elemsList = u.content := by
  obtain ⟨t, a, ⟨he⟩⟩ := u
  cases he <;> simp [CSet.elemsList, DynamicSet.content, DynamicSet.IsArraySet]

/-- `Contains` of any representation tests membership in the active element list. -/
theorem CSet.contains_eq_mem (c : CSet E) (e : E) :
    c.Contains e = decide (e ∈ c.elemsList) := by
  cases c with
  | arr s => rfl
  | hsh s =>
    obtain ⟨hm⟩ := s
    cases hm <;> simp [CSet.Contains, CSet.elemsList, HashSet.Contains]
  | dyn s =>
    rw [CSet.Contains, DynamicSet.contains_eq_content_mem]
    obtain ⟨t, a, ⟨he⟩⟩ := s
    cases he <;> simp [CSet.elemsList, DynamicSet.content, DynamicSet.IsArraySet]

/-- `Size` of any representation is the length of the active element list. -/
theorem CSet.size_eq_length (c : CSet E) : c.Size = c.elemsList.length := by
  cases c with
  | arr s => rfl
  | hsh s => rfl
  | dyn s =>
    rw [CSet.Size, DynamicSet.size_eq_content_length]
    obtain ⟨t, a, ⟨he⟩⟩ := s
    cases he <;> simp [CSet.elemsList, DynamicSet.content, DynamicSet.IsArraySet]

/-- `IsSubsetOf` of any representation checks all active elements against the other. -/
theorem CSet.isSubsetOf_eq (a o : CSet E) :
    a.IsSubsetOf o = a.elemsList.all fun e => o.Contains e := by
  cases a with
  | arr s => rfl
  | hsh s => rfl
  | dyn s =>
    obtain ⟨t, ar, ⟨he⟩⟩ := s
    cases he <;>
      simp [CSet.IsSubsetOf, CSet.elemsList, DynamicSet.IsSubsetOf, DynamicSet.IsArraySet,
        ArraySet.IsSubsetOf, HashSet.IsSubsetOf]

/-- `Equals` of any representation is the size check plus the subset check. -/
theorem CSet.equals_eq (a o : CSet E) :
    a.Equals o = (decide (a.Size = o.Size) && a.IsSubsetOf o) := by
  cases a with
  | arr s => rfl
  | hsh s => rfl
  | dyn s =>
    obtain ⟨t, ar, ⟨he⟩⟩ := s
    cases he <;>
      simp [CSet.Equals, CSet.Size, CSet.IsSubsetOf, DynamicSet.Equals, DynamicSet.Size,
        DynamicSet.IsSubsetOf, DynamicSet.IsArraySet, ArraySet.Equals, HashSet.Equals]

/-! ### Claim theorems (second batch) -/

/-- C5: after any sequence of `Add` calls on an initially empty set of each
representation, `Size` equals the number of distinct elements in the sequence, however
many duplicates it contains. -/
theorem c5_size_counts_distinct_elements (l : List E) :
    ((ArraySet.zero E).AddFromSlice l).Size = l.toFinset.card ∧
    (l.foldl HashSet.Add (HashSet.zero E)).Size = l.toFinset.card ∧
    ∀ T : Int, ((⟨T, ⟨[]⟩, ⟨none⟩⟩ : DynamicSet E).addAll l).Size = l.toFinset.card := by
  refine ⟨?_, ?_, ?_⟩
  · have hz : (ArraySet.zero E).elements = [] := rfl
    rw [ArraySet.Size, ArraySet.AddFromSlice, ArraySet.foldl_add_elements, hz,
      length_foldl_mapInsert l List.nodup_nil]
    simp
  · cases l with
    | nil => rfl
    | cons e l =>
      have h1 : HashSet.Add (HashSet.zero E) e = ⟨some [e]⟩ := rfl
      rw [List.foldl_cons, h1, HashSet.foldl_add_eq, HashSet.Size]
      have h2 : (l.foldl mapInsert [e]).length = ([e].toFinset ∪ l.toFinset).card :=
        length_foldl_mapInsert l (by simp)
      have h3 : [e].toFinset ∪ l.toFinset = (e :: l).toFinset := by
        ext x
        simp
      simp only [Option.getD_some, h2, h3]
  · intro T
    have hempty : (⟨T, ⟨[]⟩, ⟨none⟩⟩ : DynamicSet E).content = [] := rfl
    rw [DynamicSet.size_eq_content_length,
      DynamicSet.addAll_content l _ (by rw [hempty]; exact List.nodup_nil), hempty,
      length_foldl_mapInsert l List.nodup_nil]
    simp

/-- C6: `Equals` is implemented as size equality plus subset, for every pair of
representations; under the no-duplicates invariant this holds exactly when the two sets
have the same elements, and `Equals` is symmetric. -/
theorem c6_equals_characterization (a b : CSet E)
    (ha : a.elemsList.Nodup) (hb : b.elemsList.Nodup) :
    a.Equals b = (decide (a.Size = b.Size) && a.IsSubsetOf b) ∧
    (a.Equals b = true ↔ ∀ e, a.Contains e = b.Contains e) ∧
    a.Equals b = b.Equals a := by
  have key : ∀ x y : CSet E, x.elemsList.Nodup → y.elemsList.Nodup →
      (x.Equals y = true ↔ ∀ e, x.Contains e = y.Contains e) := by
    intro x y hx hy
    rw [CSet.equals_eq, CSet.isSubsetOf_eq, CSet.size_eq_length, CSet.size_eq_length]
    constructor
    · intro h
      rw [Bool.and_eq_true, decide_eq_true_iff, List.all_eq_true] at h
      obtain ⟨hlen, hall⟩ := h
      have hsub : x.elemsList.toFinset ⊆ y.elemsList.toFinset := by
        intro e he
        rw [List.mem_toFinset] at he ⊢
        have := hall e he
        rw [CSet.contains_eq_mem, decide_eq_true_iff] at this
        exact this
      have hcard : y.elemsList.toFinset.card ≤ x.elemsList.toFinset.card := by
        rw [List.toFinset_card_of_nodup hx, List.toFinset_card_of_nodup hy, hlen]
      have heq := Finset.eq_of_subset_of_card_le hsub hcard
      intro e
      rw [CSet.contains_eq_mem, CSet.contains_eq_mem]
      have : e ∈ x.elemsList ↔ e ∈ y.elemsList := by
        rw [← List.mem_toFinset, ← List.mem_toFinset, heq]
      simp [this]
    · intro h
      have hmem : ∀ e, e ∈ x.elemsList ↔ e ∈ y.elemsList := by
        intro e
        have := h e
        rw [CSet.contains_eq_mem, CSet.contains_eq_mem] at this
        constructor
        · intro hm
          have := (decide_eq_true_iff).mp (this ▸ (decide_eq_true_iff).mpr hm)
          exact this
        · intro hm
          exact (decide_eq_true_iff).mp (this.symm ▸ (decide_eq_true_iff).mpr hm)
      have hfin : x.elemsList.toFinset = y.elemsList.toFinset := by
        ext e
        rw [List.mem_toFinset, List.mem_toFinset]
        exact hmem e
      rw [Bool.and_eq_true, decide_eq_true_iff, List.all_eq_true]
      constructor
      · rw [← List.toFinset_card_of_nodup hx, ← List.toFinset_card_of_nodup hy, hfin]
      · intro e he
        rw [CSet.contains_eq_mem, decide_eq_true_iff]
        exact (hmem e).mp he
  refine ⟨CSet.equals_eq a b, key a b ha hb, ?_⟩
  rw [Bool.eq_iff_iff, key a b ha hb, key b a hb ha]
  constructor
  · intro h e
    exact (h e).symm
  · intro h e
    exact (h e).symm

/-- Closed witness for C6: two equal sets held in different representations. -/
theorem c6_witness :
    ((CSet.arr ⟨[1, 2]⟩ : CSet Int).elemsList.Nodup) ∧
    ((CSet.hsh ⟨some [2, 1]⟩ : CSet Int).elemsList.Nodup) ∧
    ((CSet.arr ⟨[1, 2]⟩ : CSet Int).Equals (CSet.hsh ⟨some [2, 1]⟩) = true ↔
      ∀ e, (CSet.arr ⟨[1, 2]⟩ : CSet Int).Contains e =
        (CSet.hsh ⟨some [2, 1]⟩ : CSet Int).Contains e) ∧
    (CSet.arr ⟨[1, 2]⟩ : CSet Int).Equals (CSet.hsh ⟨some [2, 1]⟩) =
      (CSet.hsh ⟨some [2, 1]⟩ : CSet Int).Equals (CSet.arr ⟨[1, 2]⟩) :=
  ⟨by decide, by decide,
   (c6_equals_characterization (CSet.arr ⟨[1, 2]⟩) (CSet.hsh ⟨some [2, 1]⟩)
     (by decide) (by decide)).2.1,
   (c6_equals_characterization (CSet.arr ⟨[1, 2]⟩) (CSet.hsh ⟨some [2, 1]⟩)
     (by decide) (by decide)).2.2⟩

/-- The element list of a union result: the other's elements inserted after the
receiver's, with deduplication, starting from empty. -/
theorem ArraySet.unionArraySet_elements (s : ArraySet E) (b : CSet E) :
    (s.UnionArraySet b).elements =
      b.elemsList.foldl mapInsert (s.elements.foldl mapInsert []) := by
  have hz : ((⟨[]⟩ : ArraySet E)).elements = [] := rfl
  rw [ArraySet.UnionArraySet, ArraySet.foldl_add_elements, ArraySet.foldl_add_elements,
    hz]

theorem HashSet.unionHashSet_eq (s : HashSet E) (b : CSet E) :
    s.UnionHashSet b =
      ⟨some (b.elemsList.foldl mapInsert ((s.elements.getD []).foldl mapInsert []))⟩ := by
  rw [HashSet.UnionHashSet, HashSet.foldl_add_eq, HashSet.foldl_add_eq]

theorem CSet.union_elemsList (a b : CSet E) :
    (a.Union b).elemsList =
      b.elemsList.foldl mapInsert (a.elemsList.foldl mapInsert []) := by
  cases a with
  | arr s =>
    show (s.UnionArraySet b).elements = _
    rw [ArraySet.unionArraySet_elements]
    rfl
  | hsh s =>
    show (s.UnionHashSet b).elements.getD [] = _
    rw [HashSet.unionHashSet_eq]
    rfl
  | dyn s =>
    have hbox : (CSet.dyn s).Union b = CSet.dyn (s.UnionDynamicSet b) := rfl
    rw [hbox, DynamicSet.elemsList_dyn, DynamicSet.elemsList_dyn]
    obtain ⟨t, a, ⟨he⟩⟩ := s
    cases he with
    | some m =>
      rw [DynamicSet.UnionDynamicSet]
      rw [if_neg (by simp [DynamicSet.IsArraySet])]
      rw [HashSet.unionHashSet_eq]
      rfl
    | none =>
      rw [DynamicSet.UnionDynamicSet]
      rw [if_pos (by simp [DynamicSet.IsArraySet])]
      have hu := ArraySet.unionArraySet_elements a b
      have hnodup : (a.UnionArraySet b).elements.Nodup := by
        rw [hu]
        exact nodup_foldl_mapInsert _ (nodup_foldl_mapInsert _ List.nodup_nil)
      have hc : (⟨t, a, ⟨none⟩⟩ : DynamicSet E).content = a.elements := rfl
      rw [hc]
      by_cases hcheck : t ≤ (((a.UnionArraySet b).elements).length : Int)
      · rw [hu] at hcheck
        simp [DynamicSet.arraySetReachedThreshold, hcheck, DynamicSet.transformToHashSet,
          DynamicSet.content, ArraySet.ToHashSet, hu,
          foldl_mapInsert_nil_of_nodup (hu ▸ hnodup)]
      · rw [hu] at hcheck
        simp [DynamicSet.arraySetReachedThreshold, hcheck, DynamicSet.content, hu]

/-- C7: for any two representations, the union contains an element iff either operand
does, its size is the number of distinct elements across both operands (despite an
insertion attempt for every element of each), and its concrete representation matches the
receiver's. -/
theorem c7_union_characterization (a b : CSet E) :
    (∀ e, (a.Union b).Contains e = (a.Contains e || b.Contains e)) ∧
    (a.Union b).Size = (a.elemsList ++ b.elemsList).toFinset.card ∧
    (a.Union b).rep = a.rep := by
  refine ⟨?_, ?_, ?_⟩
  · intro e
    rw [CSet.contains_eq_mem, CSet.contains_eq_mem, CSet.contains_eq_mem,
      CSet.union_elemsList]
    simp [mem_foldl_mapInsert]
  · rw [CSet.size_eq_length, CSet.union_elemsList,
      length_foldl_mapInsert _ (nodup_foldl_mapInsert _ List.nodup_nil),
      toFinset_foldl_mapInsert]
    simp [List.toFinset_append, Finset.union_comm, Finset.union_assoc]
  · cases a <;> rfl

/-! ### The C1 trajectory: one-by-one adds, then one-by-one removes -/

theorem emptyWithThreshold_eq (T : Int) (hT : 1 ≤ T) :
    emptyWithThreshold E T = ⟨T, ⟨[]⟩, ⟨none⟩⟩ := by
  unfold emptyWithThreshold NewDynamicSet
  rw [DynamicSet.setSizeThreshold_array]
  rw [if_neg (by simp; omega)]

/-- Closed form of the add phase: adding distinct elements one by one to an empty set
with threshold `T ≥ 1` keeps the whole list in the array store while its length is below
`T`, and moves it (unchanged, order preserved) into the hash store otherwise. -/
theorem DynamicSet.addAll_trajectory (T : Int) (hT : 1 ≤ T) (l : List E)
    (hl : l.Nodup) :
    (⟨T, ⟨[]⟩, ⟨none⟩⟩ : DynamicSet E).addAll l =
      if (l.length : Int) < T then ⟨T, ⟨l⟩, ⟨none⟩⟩ else ⟨T, ⟨[]⟩, ⟨some l⟩⟩ := by
  induction l using List.reverseRecOn with
  | nil =>
    rw [if_pos (by simpa using hT)]
    rfl
  | append_singleton l e ih =>
    obtain ⟨hl2, -, hdisj⟩ := List.nodup_append.mp hl
    have he : e ∉ l := fun h => hdisj h (List.mem_singleton_self e)
    have hstep : (⟨T, ⟨[]⟩, ⟨none⟩⟩ : DynamicSet E).addAll (l ++ [e]) =
        ((⟨T, ⟨[]⟩, ⟨none⟩⟩ : DynamicSet E).addAll l).Add e := by
      unfold DynamicSet.addAll
      rw [List.foldl_append]
      rfl
    rw [hstep, ih hl2]
    by_cases hc : (l.length : Int) < T
    · rw [if_pos hc]
      by_cases hc2 : ((l ++ [e]).length : Int) < T
      · rw [if_pos hc2]
        have hcheck : ¬T ≤ (l.length : Int) + 1 := by
          simp at hc2
          omega
        simp [DynamicSet.Add, DynamicSet.IsArraySet, ArraySet.Add, he,
          DynamicSet.arraySetReachedThreshold, mapInsert, hcheck]
      · rw [if_neg hc2]
        have hcheck : T ≤ (l.length : Int) + 1 := by
          simp at hc2
          omega
        simp [DynamicSet.Add, DynamicSet.IsArraySet, ArraySet.Add, he,
          DynamicSet.arraySetReachedThreshold, hcheck, DynamicSet.transformToHashSet,
          ArraySet.ToHashSet, mapInsert, foldl_mapInsert_nil_of_nodup hl]
    · rw [if_neg hc]
      rw [if_neg (by simp at hc ⊢; omega)]
      simp [DynamicSet.Add, DynamicSet.IsArraySet, HashSet.Add,
        mapInsert_of_not_mem he]

/-- Closed form of the remove phase: removing distinct, present elements one by one from
a hash-mode set that starts strictly above half the threshold and ends at or above half
the threshold stays in the hash store the whole way, except that reaching exactly half
the threshold at the very last removal transforms it to the array store. -/
theorem DynamicSet.removeAll_trajectory (T : Int) (r : List E) :
    ∀ m : List E, m.Nodup → r.Nodup → (∀ e ∈ r, e ∈ m) →
    Int.tdiv T 2 < (m.length : Int) →
    Int.tdiv T 2 ≤ (m.length : Int) - (r.length : Int) →
    (⟨T, ⟨[]⟩, ⟨some m⟩⟩ : DynamicSet E).removeAll r =
      if Int.tdiv T 2 < (m.length : Int) - (r.length : Int)
        then ⟨T, ⟨[]⟩, ⟨some (r.foldl List.erase m)⟩⟩
        else ⟨T, ⟨r.foldl List.erase m⟩, ⟨none⟩⟩ := by
  induction r with
  | nil =>
    intro m _ _ _ hinit _
    rw [if_pos (by simpa using hinit)]
    rfl
  | cons e r ih =>
    intro m hm hr hrm hinit hfinal
    have hem : e ∈ m := hrm e (List.mem_cons_self e r)
    have hlen : (m.erase e).length = m.length - 1 := List.length_erase_of_mem hem
    have hpos : 0 < m.length := List.length_pos.mpr (List.ne_nil_of_mem hem)
    have hcast : ((m.erase e).length : Int) = (m.length : Int) - 1 := by
      rw [hlen]
      omega
    have hstep : (⟨T, ⟨[]⟩, ⟨some m⟩⟩ : DynamicSet E).removeAll (e :: r) =
        ((⟨T, ⟨[]⟩, ⟨some m⟩⟩ : DynamicSet E).Remove e).removeAll r := rfl
    have hremove : (⟨T, ⟨[]⟩, ⟨some m⟩⟩ : DynamicSet E).Remove e =
        (if ((m.erase e).length : Int) ≤ Int.tdiv T 2
          then ⟨T, ⟨m.erase e⟩, ⟨none⟩⟩
          else ⟨T, ⟨[]⟩, ⟨some (m.erase e)⟩⟩) := by
      by_cases hc : ((m.erase e).length : Int) ≤ Int.tdiv T 2
      · rw [if_pos hc]
        simp [DynamicSet.Remove, DynamicSet.IsArraySet, HashSet.Remove,
          DynamicSet.hashSetReachedThreshold, hc, DynamicSet.transformToArraySet,
          HashSet.ToArraySet]
      · rw [if_neg hc]
        simp [DynamicSet.Remove, DynamicSet.IsArraySet, HashSet.Remove,
          DynamicSet.hashSetReachedThreshold, hc]
    by_cases hc : ((m.erase e).length : Int) ≤ Int.tdiv T 2
    · have hr0 : r = [] := by
        rw [← List.length_eq_zero]
        have hrlen : ((e :: r).length : Int) = (r.length : Int) + 1 := by simp
        omega
      subst hr0
      rw [hstep, hremove, if_pos hc]
      rw [if_neg (by simp at hfinal ⊢; omega)]
      rfl
    · rw [hstep, hremove, if_neg hc]
      have hdisj : e ∉ r := (List.nodup_cons.mp hr).1
      have hrm2 : ∀ x ∈ r, x ∈ m.erase e := by
        intro x hx
        have hxe : x ≠ e := fun h => hdisj (h ▸ hx)
        exact (List.mem_erase_of_ne hxe).mpr (hrm x (List.mem_cons_of_mem e hx))
      have hinit2 : Int.tdiv T 2 < ((m.erase e).length : Int) := by omega
      have hfinal2 : Int.tdiv T 2 ≤ ((m.erase e).length : Int) - (r.length : Int) := by
        have hrlen : ((e :: r).length : Int) = (r.length : Int) + 1 := by simp
        omega
      rw [ih (m.erase e) (hm.erase e) ((List.nodup_cons.mp hr).2) hrm2 hinit2 hfinal2]
      have hiff : (Int.tdiv T 2 < ((m.erase e).length : Int) - (r.length : Int)) ↔
          (Int.tdiv T 2 < (m.length : Int) - (((e :: r).length : Nat) : Int)) := by
        have hrlen : ((e :: r).length : Int) = (r.length : Int) + 1 := by simp
        omega
      simp only [List.foldl_cons]
      exact if_congr hiff rfl rfl

/-- C1: for every threshold `T ≥ 1` configured through `SetSizeThreshold` on a fresh set,
adding distinct elements one by one keeps the set in array mode at every size below `T`
and puts it in hash mode once the size reaches `T`; from there, removing elements one by
one keeps it in hash mode while the remaining size is at least `⌊T/2⌋ + 1`, and the
removal that brings the size down to exactly `⌊T/2⌋` transforms it back to array mode. -/
theorem c1_mode_transition_trajectory (T : Int) (hT : 1 ≤ T) (l r : List E)
    (hl : l.Nodup) (hr : r.Nodup) (hrl : ∀ e ∈ r, e ∈ l) :
    ((l.length : Int) < T → ((emptyWithThreshold E T).addAll l).IsArraySet = true) ∧
    (T ≤ (l.length : Int) →
      ((emptyWithThreshold E T).addAll l).IsHashSet = true ∧
      (Int.tdiv T 2 + 1 ≤ (l.length : Int) - (r.length : Int) →
        (((emptyWithThreshold E T).addAll l).removeAll r).IsHashSet = true) ∧
      ((l.length : Int) - (r.length : Int) = Int.tdiv T 2 →
        (((emptyWithThreshold E T).addAll l).removeAll r).IsArraySet = true)) := by
  rw [emptyWithThreshold_eq T hT, DynamicSet.addAll_trajectory T hT l hl]
  have htdivlt : Int.tdiv T 2 < T := by
    rw [Int.tdiv_eq_ediv (by omega) (by omega)]
    omega
  constructor
  · intro hlt
    rw [if_pos hlt]
    simp [DynamicSet.IsArraySet]
  · intro hge
    rw [if_neg (by omega)]
    refine ⟨by simp [DynamicSet.IsHashSet], ?_, ?_⟩
    · intro h1
      rw [DynamicSet.removeAll_trajectory T r l hl hr hrl (by omega) (by omega)]
      rw [if_pos (by omega)]
      simp [DynamicSet.IsHashSet]
    · intro h2
      rw [DynamicSet.removeAll_trajectory T r l hl hr hrl (by omega) (by omega)]
      rw [if_neg (by omega)]
      simp [DynamicSet.IsArraySet]

/-- Closed witness for C1 with threshold 4: three adds stay in array mode; the fourth add
enters hash mode; removing one element (size 3 = ⌊4/2⌋+1) stays in hash mode; removing
two (size 2 = ⌊4/2⌋) returns to array mode. -/
theorem c1_witness :
    ((([0, 1] : List Int).length : Int) < 4 ∧
      ((emptyWithThreshold Int 4).addAll [0, 1]).IsArraySet = true) ∧
    ((4 : Int) ≤ (([0, 1, 2, 3] : List Int).length : Int) ∧
      ((emptyWithThreshold Int 4).addAll [0, 1, 2, 3]).IsHashSet = true ∧
      (((emptyWithThreshold Int 4).addAll [0, 1, 2, 3]).removeAll [0]).IsHashSet = true ∧
      (((emptyWithThreshold Int 4).addAll [0, 1, 2, 3]).removeAll [0, 1]).IsArraySet
        = true) := by
  have h1 := c1_mode_transition_trajectory 4 (by decide) ([0, 1] : List Int) []
    (by decide) (by decide) (by decide)
  have h2 := c1_mode_transition_trajectory 4 (by decide) ([0, 1, 2, 3] : List Int) [0]
    (by decide) (by decide) (by decide)
  have h3 := c1_mode_transition_trajectory 4 (by decide) ([0, 1, 2, 3] : List Int) [0, 1]
    (by decide) (by decide) (by decide)
  refine ⟨⟨by decide, h1.1 (by decide)⟩,
    by decide, (h2.2 (by decide)).1, ((h2.2 (by decide)).2.1 (by decide)),
    ((h3.2 (by decide)).2.2 (by decide))⟩

end GoSet
